import Mathlib

/-!
Verification development for the dronecot repository Cross-Screen Object
Tracking and Handoff Prediction Engine and its dashboard front-end.

The front-end components (`VideoGrid.jsx`, `MetadataPanel.jsx`) are embedded
directly from the JavaScript source.  The backend tracking engine
(`drone_detection_backend/app/yolo_detector.py` and friends) is not part of
the source tree; the engine definitions below are modelled from the
component design of the specification (spec.md sections 3 to 4.6) and the
description in the repository README of the cross-screen tracking pipeline.
Numbers are rationals (`ℚ`); frame coordinates are normalized to [0, 1].
-/

namespace DroneCOT

/-- Generic selection of a list element minimizing a key; the earliest
element wins ties (first-registered, first-served). -/
def pickMin {α β : Type} [LinearOrder β] (f : α → β) : List α → Option α
  | [] => none
  | x :: xs => some (xs.foldl (fun b a => if f a < f b then a else b) x)

/-- Generic selection of a list element maximizing a key; the earliest
element wins ties. -/
def pickMax {α β : Type} [LinearOrder β] (f : α → β) : List α → Option α
  | [] => none
  | x :: xs => some (xs.foldl (fun b a => if f b < f a then a else b) x)

/-- Squared Euclidean distance between two points. -/
def dist2 (a b : ℚ × ℚ) : ℚ := (a.1 - b.1) ^ 2 + (a.2 - b.2) ^ 2

namespace Panel

/-- Bounding box payload of a detection as consumed by `MetadataPanel.jsx`:
`track_id` may be absent (JS `null`/`undefined`), as may `class_name` and
`confidence`. -/
structure BBox where
  trackId : Option Nat
  className : Option String
  confidence : Option ℚ
deriving DecidableEq

/-- Detection record as consumed by `MetadataPanel.jsx`: the whole
`bounding_box` object may be absent (the JS code uses optional chaining). -/
structure MDet where
  streamId : Nat
  boundingBox : Option BBox
  timestamp : ℚ
deriving DecidableEq

/-- JS `det.bounding_box?.track_id`, with `null`/`undefined` mapped to
`none`. -/
def trackIdOf (d : MDet) : Option Nat := d.boundingBox.bind (fun b => b.trackId)

/-- The `filteredDetections` memo of MetadataPanel: restrict to the selected stream
when one is selected, otherwise show all. -/
def filteredDetections (sel : Option Nat) (dets : List MDet) : List MDet :=
  match sel with
  | some s => dets.filter (fun d => d.streamId == s)
  | none => dets

/-- One update of the JS `latest` object at key `k`: a present key is
replaced only by a strictly later timestamp, an absent key is inserted. -/
def upsertLatest (d : MDet) (k : Nat) : List (Nat × MDet) → List (Nat × MDet)
  | [] => [(k, d)]
  | (k2, d2) :: rest =>
      if k2 = k then
        (if d2.timestamp < d.timestamp then (k, d) else (k2, d2)) :: rest
      else (k2, d2) :: upsertLatest d k rest

/-- Body of the `forEach` in the MetadataPanel `latestByTrack` memo: detections
whose bounding box carries no track id are skipped. -/
def latestStep (m : List (Nat × MDet)) (d : MDet) : List (Nat × MDet) :=
  match trackIdOf d with
  | none => m
  | some k => upsertLatest d k m

/-- The `latestByTrack` memo of MetadataPanel: the values of the `latest` object after
folding over the filtered detections.  (JS objects order integer-like keys
ascending; the claims verified below are order-insensitive, so the
association list keeps insertion order.) -/
def latestByTrack (dets : List MDet) : List MDet :=
  (dets.foldl latestStep []).map (fun p => p.2)

/-- JS `d.bounding_box?.confidence || 0`: a missing box or missing
confidence counts as 0. -/
def confOf (d : MDet) : ℚ :=
  match d.boundingBox with
  | none => 0
  | some b =>
    match b.confidence with
    | none => 0
    | some c => c

/-- The MetadataPanel `avgConfidence` computation: the guarded `reduce`-over-length
division, literally `length > 0 ? reduce(..)/length : 0`. -/
def avgConfidence (dets : List MDet) : ℚ :=
  if 0 < dets.length then
    (dets.foldl (fun s d => s + confOf d) 0) / (dets.length : ℚ)
  else 0

/-- Statistics block of `MetadataPanel.jsx` (`stats` memo), computed over
the filtered detections.  The per-class breakdown (`classCounts`) is not
referenced by any verified claim and is omitted. -/
structure MStats where
  total : Nat
  uniqueTracks : Nat
  avgConfidence : ℚ
deriving DecidableEq

/-- The `stats` memo: totals, the unique-track count displayed by the
panel, and the average confidence. -/
def statsOf (dets : List MDet) : MStats :=
  { total := dets.length
    uniqueTracks := (latestByTrack dets).length
    avgConfidence := avgConfidence dets }

end Panel

namespace Grid

/-- The fixed stream list of `VideoGrid.jsx` (`const streams = [0, 1, 2, 3,
4, 5]`). -/
def streams : List Nat := [0, 1, 2, 3, 4, 5]

/-- Number of grid columns (`grid-cols-3` in `VideoGrid.jsx`). -/
def gridCols : Nat := 3

/-- Props handed to one `VideoPlayer` in the grid: the stream id, its frame
if any stream delivered one, and the detections grouped for that stream. -/
structure PlayerView where
  streamId : Nat
  frame : Option String
  dets : List Panel.MDet
deriving DecidableEq

/-- The `detectionsByStream` grouping of `VideoGrid.jsx`, restricted to one
stream id. -/
def detectionsByStream (dets : List Panel.MDet) (sid : Nat) : List Panel.MDet :=
  dets.filter (fun d => d.streamId == sid)

/-- The list of players rendered by `VideoGrid.jsx`: one per entry of
`streams`, regardless of which streams delivered frames or detections. -/
def videoGridPlayers (frames : List (Nat × String)) (dets : List Panel.MDet) :
    List PlayerView :=
  streams.map (fun sid =>
    { streamId := sid, frame := frames.lookup sid, dets := detectionsByStream dets sid })

end Grid

namespace Engine

/-- Modelled from the spec: the four edges of the field of view of a stream (spec 3, ScreenTopology). -/
inductive Edge
  | top
  | bottom
  | left
  | right
deriving DecidableEq

/-- Modelled from the spec: the screen grid has 2 rows (README screen
layout: screens 0,1,2 on top of screens 3,4,5). -/
def screenRows : Nat := 2

/-- Modelled from the spec: the screen grid has 3 columns. -/
def screenCols : Nat := 3

/-- Modelled from the spec: the screen nodes of the fixed 2x3 topology,
ids 0 through 5. -/
def screens : List Nat := List.range (screenRows * screenCols)

/-- Modelled from the spec: `ScreenTopology.neighbor_of` for the fixed 2x3
grid (screen id = row * 3 + column, row 0 on top).  Invalid screen ids have
no neighbors. -/
def neighbor_of (s : Nat) (e : Edge) : Option Nat :=
  if s < 6 then
    match e with
    | Edge.left => if 0 < s % 3 then some (s - 1) else none
    | Edge.right => if s % 3 < 2 then some (s + 1) else none
    | Edge.top => if 3 ≤ s then some (s - 3) else none
    | Edge.bottom => if s < 3 then some (s + 3) else none
  else none

/-- Modelled from the spec: the coordinate transform along a matched edge.
On the straight axis-aligned 2x3 grid every adjacency preserves the 1-D
edge coordinate (the identity case of "identity or flipped"). -/
def transform1D (c : ℚ) : ℚ := c

/-- Modelled from the spec: the startup configuration (spec 6): memory
window in frames, minimum affinity threshold, handoff lookahead horizon,
arrival-window tolerance, and the `VELOCITY_PREDICTION_ENABLED` flag. -/
structure Config where
  memoryWindow : Nat
  affinityMin : ℚ
  horizon : ℚ
  tol : ℚ
  enabled : Bool
deriving DecidableEq

/-- Modelled from the spec: one (position, timestamp) sample of the ring
buffer of a Track. -/
structure Sample where
  pos : ℚ × ℚ
  t : ℚ
deriving DecidableEq

/-- Modelled from the spec: a per-stream Track (spec 3): stream id, track
id, ring buffer of recent samples (newest first), recent class labels for
the majority vote, last box size, and the age in frames since the last
matched detection. -/
structure Track where
  stream : Nat
  id : Nat
  buf : List Sample
  labels : List Nat
  w : ℚ
  h : ℚ
  age : Nat
deriving DecidableEq

/-- Modelled from the spec: a Detection handed in by the external detector
(spec 3): stream id, normalized box, class label code, confidence, frame
timestamp. -/
structure Detection where
  stream : Nat
  x : ℚ
  y : ℚ
  w : ℚ
  h : ℚ
  cls : Nat
  conf : ℚ
  t : ℚ
deriving DecidableEq

/-- Modelled from the spec: untrusted-input validation (spec 6): detections
with out-of-range boxes are dropped, not fatal. -/
def validDet (d : Detection) : Bool :=
  decide (0 ≤ d.x) && decide (0 ≤ d.y) && decide (0 ≤ d.w) && decide (0 ≤ d.h)
    && decide (d.x + d.w ≤ 1) && decide (d.y + d.h ≤ 1)

/-- Modelled from the spec: consecutive frame-to-frame centroid
displacements divided by elapsed time, newest first (spec 4.3). -/
def sampleVels : List Sample → List (ℚ × ℚ)
  | s2 :: s1 :: rest =>
      ((s2.pos.1 - s1.pos.1) / (s2.t - s1.t), (s2.pos.2 - s1.pos.2) / (s2.t - s1.t))
        :: sampleVels (s1 :: rest)
  | _ => []

/-- Modelled from the spec: smoothing factor weighting recent samples about
twice as much as older ones (spec 4.3). -/
def ewmaAlpha : ℚ := 2 / 3

/-- Modelled from the spec: exponentially-weighted average of the
displacement velocities, newest first. -/
def ewma : List (ℚ × ℚ) → ℚ × ℚ
  | [] => (0, 0)
  | [v] => v
  | v :: w :: rest =>
      let r := ewma (w :: rest)
      (ewmaAlpha * v.1 + (1 - ewmaAlpha) * r.1,
       ewmaAlpha * v.2 + (1 - ewmaAlpha) * r.2)

/-- Sign of a rational, used to compare velocity directions. -/
def sgn (a : ℚ) : Int := if 0 < a then 1 else if a < 0 then -1 else 0

/-- Two velocity vectors point the same way if their components agree in
sign. -/
def sameDir (a b : ℚ × ℚ) : Bool := (sgn a.1 == sgn b.1) && (sgn a.2 == sgn b.2)

/-- Modelled from the spec: how many consecutive recent frames the velocity
direction has been stable, the source of prediction confidence (spec 4.4). -/
def stableRun : List (ℚ × ℚ) → Nat
  | [] => 0
  | [_] => 1
  | v :: w :: rest => if sameDir v w then stableRun (w :: rest) + 1 else 1

/-- Modelled from the spec: the Velocity Estimator (spec 4.3).  With fewer
than two samples velocity is undefined: the zero vector with zero
confidence.  Otherwise the EWMA velocity with the direction-stability run
length as confidence. -/
def velocityOf (buf : List Sample) : (ℚ × ℚ) × Nat :=
  if buf.length < 2 then ((0, 0), 0)
  else (ewma (sampleVels buf), stableRun (sampleVels buf))

/-- Most recent known position of a track (newest ring-buffer sample). -/
def trackPos (tr : Track) : ℚ × ℚ :=
  match tr.buf with
  | s :: _ => s.pos
  | [] => (0, 0)

/-- Timestamp of the newest sample of a track. -/
def lastTime (tr : Track) : ℚ :=
  match tr.buf with
  | s :: _ => s.t
  | [] => 0

/-- Axis-aligned bounding box, normalized coordinates. -/
structure Box where
  x : ℚ
  y : ℚ
  w : ℚ
  h : ℚ
deriving DecidableEq

/-- Box of a detection. -/
def detBox (d : Detection) : Box := { x := d.x, y := d.y, w := d.w, h := d.h }

/-- Centroid of the box of a detection. -/
def detCenter (d : Detection) : ℚ × ℚ := (d.x + d.w / 2, d.y + d.h / 2)

/-- Modelled from the spec: the position of a track extrapolated to the new
frame time using its last known velocity (spec 4.2). -/
def extrapolate (tr : Track) (now : ℚ) : ℚ × ℚ :=
  let v := (velocityOf tr.buf).1
  let p := trackPos tr
  (p.1 + v.1 * (now - lastTime tr), p.2 + v.2 * (now - lastTime tr))

/-- Extrapolated box of a track, centered on the extrapolated centroid with
the last matched box size. -/
def boxOf (tr : Track) (now : ℚ) : Box :=
  let c := extrapolate tr now
  { x := c.1 - tr.w / 2, y := c.2 - tr.h / 2, w := tr.w, h := tr.h }

/-- Intersection-over-union of two boxes (0 when the union is degenerate). -/
def iou (a b : Box) : ℚ :=
  let ix := min (a.x + a.w) (b.x + b.w) - max a.x b.x
  let iy := min (a.y + a.h) (b.y + b.h) - max a.y b.y
  let inter := max 0 ix * max 0 iy
  let uni := a.w * a.h + b.w * b.h - inter
  if uni = 0 then 0 else inter / uni

/-- Number of occurrences of a label. -/
def countOcc (l : List Nat) (a : Nat) : Nat := (l.filter (fun b => b == a)).length

/-- Modelled from the spec: the class label of a Track is the majority vote over
its recent labels (spec 3); the earliest label wins ties. -/
def majorityLabel (l : List Nat) : Nat := (pickMax (countOcc l) l).getD 0

/-- Modelled from the spec: weighted affinity between an extrapolated Track
and an incoming Detection, combining box overlap and class-label agreement
(spec 4.2). -/
def affinity (now : ℚ) (d : Detection) (tr : Track) : ℚ :=
  iou (boxOf tr now) (detBox d) + (if majorityLabel tr.labels = d.cls then 1 / 2 else 0)

/-- Modelled from the spec: a Detection is matched to the highest-scoring
same-stream Track above the minimum-affinity threshold; the track list is
kept in ascending id order, so ties are broken by the lower (older) track
id (spec 4.2). -/
def bestTrackFor (cfg : Config) (now : ℚ) (avail : List Track) (d : Detection) :
    Option Track :=
  pickMax (affinity now d)
    (avail.filter (fun tr =>
      (tr.stream == d.stream) && decide (cfg.affinityMin ≤ affinity now d tr)))

/-- Accumulator of the greedy per-frame assignment: pairs matched so far,
detections left unmatched (future spawns), and still-unclaimed tracks. -/
structure AssignState where
  matched : List (Track × Detection)
  unmatchedDets : List Detection
  avail : List Track
deriving DecidableEq

/-- One greedy assignment step for a single detection. -/
def assignStep (cfg : Config) (now : ℚ) (st : AssignState) (d : Detection) :
    AssignState :=
  match bestTrackFor cfg now st.avail d with
  | some tr =>
      { st with
        matched := st.matched ++ [(tr, d)]
        avail := st.avail.filter (fun t2 => !((t2.stream == tr.stream) && (t2.id == tr.id))) }
  | none => { st with unmatchedDets := st.unmatchedDets ++ [d] }

/-- Modelled from the spec: greedy (not globally optimal) matching of a
detections of a frame against the existing tracks (spec 4.2). -/
def assign (cfg : Config) (now : ℚ) (tracks : List Track) (dets : List Detection) :
    AssignState :=
  dets.foldl (assignStep cfg now) { matched := [], unmatchedDets := [], avail := tracks }

/-- Modelled from the spec: a matched Track absorbs its detection: the ring
buffer and label history gain a sample (bounded by the memory window), the
box size refreshes, and the age since last update resets to zero. -/
def updateTrack (cfg : Config) (tr : Track) (d : Detection) : Track :=
  { tr with
    buf := (({ pos := detCenter d, t := d.t } : Sample) :: tr.buf).take cfg.memoryWindow
    labels := (d.cls :: tr.labels).take cfg.memoryWindow
    w := d.w
    h := d.h
    age := 0 }

/-- An unmatched Track coasts: only its age since last update grows. -/
def ageInc (tr : Track) : Track := { tr with age := tr.age + 1 }

/-- A fresh Track spawned by an unmatched detection. -/
def mkTrack (i : Nat) (d : Detection) : Track :=
  { stream := d.stream, id := i
    buf := [{ pos := detCenter d, t := d.t }]
    labels := [d.cls], w := d.w, h := d.h, age := 0 }

/-- Tracks spawned by the unmatched detections of this frame, with monotonically
assigned fresh ids. -/
def spawnTracks (nid : Nat) (ds : List Detection) : List Track :=
  ds.enum.map (fun p => mkTrack (nid + p.1) p.2)

/-- Modelled from the spec: one frame of the Per-Stream Tracker (spec 4.2):
validate detections, match greedily, update matched tracks, age unmatched
ones, evict tracks whose age exceeds the memory window, and spawn new
tracks for unmatched detections.  Returns (all live tracks, newly spawned
tracks, next fresh id). -/
def trackerStep (cfg : Config) (now : ℚ) (tracks : List Track)
    (dets : List Detection) (nid : Nat) : List Track × List Track × Nat :=
  let good := dets.filter validDet
  let a := assign cfg now tracks good
  let updated := a.matched.map (fun md => updateTrack cfg md.1 md.2)
  let aged := a.avail.map ageInc
  let survivors := (updated ++ aged).filter (fun t => decide (t.age ≤ cfg.memoryWindow))
  let spawned := spawnTracks nid a.unmatchedDets
  (survivors ++ spawned, spawned, nid + a.unmatchedDets.length)

/-- Modelled from the spec: a HandoffPrediction (spec 3): source screen and
track, predicted target screen, predicted entry point, arrival-time window,
velocity at prediction time, confidence and the class label to match. -/
structure HandoffPrediction where
  srcScreen : Nat
  srcTrack : Nat
  target : Nat
  entry : ℚ × ℚ
  winLo : ℚ
  winHi : ℚ
  emitTime : ℚ
  vel : ℚ × ℚ
  conf : Nat
  cls : Nat
deriving DecidableEq

/-- Modelled from the spec: for each screen edge with an outward (non-zero)
velocity component, the time at which the extrapolated centroid crosses the
edge; the minimum positive crossing time wins (spec 4.4).  Bottom is y = 1,
top is y = 0 (image coordinates). -/
def edgeExitTime (p v : ℚ × ℚ) : Option (Edge × ℚ) :=
  let cands :=
    (if 0 < v.1 then [(Edge.right, (1 - p.1) / v.1)] else []) ++
    (if v.1 < 0 then [(Edge.left, (0 - p.1) / v.1)] else []) ++
    (if 0 < v.2 then [(Edge.bottom, (1 - p.2) / v.2)] else []) ++
    (if v.2 < 0 then [(Edge.top, (0 - p.2) / v.2)] else [])
  pickMin (fun c => c.2) (cands.filter (fun c => decide (0 < c.2)))

/-- Extrapolated exit position after time `t`. -/
def exitPoint (p v : ℚ × ℚ) (t : ℚ) : ℚ × ℚ := (p.1 + v.1 * t, p.2 + v.2 * t)

/-- Modelled from the spec: the entry point on the matching edge of the neighbor
obtained from the exit point via the topology transform (spec 4.1): an exit
through the right edge enters through the left edge of the neighbor at the same
1-D edge coordinate, and so on. -/
def entryPoint (e : Edge) (ept : ℚ × ℚ) : ℚ × ℚ :=
  match e with
  | Edge.right => (0, transform1D ept.2)
  | Edge.left => (1, transform1D ept.2)
  | Edge.bottom => (transform1D ept.1, 0)
  | Edge.top => (transform1D ept.1, 1)

/-- Modelled from the spec: the Edge-Exit / Handoff Predictor for one Track
(spec 4.4).  Undefined velocity (zero confidence), no edge crossed, a
crossing beyond the lookahead horizon, or no topology neighbor for the exit
edge all yield no prediction; otherwise exactly one prediction targeting
the neighbor, with the transformed entry point and an arrival window of
tolerance `cfg.tol` around the predicted crossing time. -/
def predict (cfg : Config) (now : ℚ) (tr : Track) : Option HandoffPrediction :=
  let vc := velocityOf tr.buf
  if vc.2 = 0 then none
  else
    match edgeExitTime (trackPos tr) vc.1 with
    | none => none
    | some et =>
      if et.2 ≤ cfg.horizon then
        match neighbor_of tr.stream et.1 with
        | none => none
        | some tgt =>
            some { srcScreen := tr.stream, srcTrack := tr.id, target := tgt
                   entry := entryPoint et.1 (exitPoint (trackPos tr) vc.1 et.2)
                   winLo := now + et.2 - cfg.tol, winHi := now + et.2 + cfg.tol
                   emitTime := now, vel := vc.1, conf := vc.2
                   cls := majorityLabel tr.labels }
      else none

/-- Modelled from the spec: any previous prediction for a Track is
superseded by the outcome of the current frame, never accumulated (spec 4.4). -/
def updatePrediction (_prev cur : Option HandoffPrediction) : Option HandoffPrediction :=
  cur

/-- Modelled from the spec: the predictions emitted for one frame, one per
track with a defined exit (spec 4.4). -/
def framePredictions (cfg : Config) (now : ℚ) (tracks : List Track) :
    List HandoffPrediction :=
  tracks.filterMap (predict cfg now)

/-- Modelled from the spec: a newly spawned per-stream Track as seen by the
Registry when watching for arrivals: screen, local id, initial position,
class label, spawn time. -/
structure NewTrack where
  screen : Nat
  trackId : Nat
  pos : ℚ × ℚ
  cls : Nat
  spawnTime : ℚ
deriving DecidableEq

/-- A newly spawned Track packaged for the Registry. -/
def toNewTrack (now : ℚ) (tr : Track) : NewTrack :=
  { screen := tr.stream, trackId := tr.id, pos := trackPos tr
    cls := majorityLabel tr.labels, spawnTime := now }

/-- Modelled from the spec: the CrossTrack status variants (spec 4.5,
design note on state-machine modeling). -/
inductive CTStatus
  | active
  | pendingHandoff
  | terminated
deriving DecidableEq

/-- Modelled from the spec: a registry-owned CrossTrack (spec 3): global
id, current screen, cumulative crossing counter, the underlying per-stream
track (stream id, local track id), the pending HandoffPrediction if any,
the status variant and the predicted target screens shown by the UI. -/
structure CrossTrack where
  gid : Nat
  currentScreen : Nat
  screensCrossed : Nat
  link : Nat × Nat
  pending : Option HandoffPrediction
  status : CTStatus
  predictedScreens : List Nat
deriving DecidableEq

/-- Modelled from the spec: does a newly spawned Track satisfy a pending
prediction: it appears on the predicted target screen, within the arrival
window, with matching class, near the predicted entry point (within the
configured tolerance radius) (spec 4.5). -/
def arrivalMatch (cfg : Config) (p : HandoffPrediction) (nt : NewTrack) : Bool :=
  (nt.screen == p.target) && (nt.cls == p.cls)
    && decide (p.winLo ≤ nt.spawnTime) && decide (nt.spawnTime ≤ p.winHi)
    && decide (dist2 nt.pos p.entry ≤ cfg.tol * cfg.tol)

/-- Modelled from the spec: among the newly spawned Tracks on the target
screen that satisfy the prediction, the one whose initial position is
closest to the predicted entry point (spec 4.5). -/
def bestArrival (cfg : Config) (p : HandoffPrediction) (nts : List NewTrack) :
    Option NewTrack :=
  pickMin (fun nt => dist2 nt.pos p.entry) (nts.filter (arrivalMatch cfg p))

/-- Modelled from the spec: when several HandoffPredictions compete for the
same new Track, the prediction with the earliest emission time wins
(first-registered, first-served) (spec 4.5). -/
def winnerFor (cfg : Config) (nt : NewTrack) (ps : List HandoffPrediction) :
    Option HandoffPrediction :=
  pickMin (fun p => p.emitTime) (ps.filter (fun p => arrivalMatch cfg p nt))

/-- All pending predictions registered in the Registry. -/
def pendingPreds (cts : List CrossTrack) : List HandoffPrediction :=
  cts.filterMap (fun ct => ct.pending)

/-- Modelled from the spec: the confirm-or-expire transition of one
CrossTrack (spec 4.5).  A pending prediction whose best arrival it also
wins against all competitors is confirmed: the screen pointer moves to the
target, `screens_crossed` increments by one, the link moves to the arriving
track.  Otherwise, once the arrival window has elapsed the prediction is
dropped and the CrossTrack stays where it was; until then it keeps
waiting. -/
def registryStepCT (cfg : Config) (allPreds : List HandoffPrediction)
    (nts : List NewTrack) (now : ℚ) (ct : CrossTrack) : CrossTrack :=
  match ct.pending with
  | none => ct
  | some p =>
    match bestArrival cfg p nts with
    | some nt =>
        if winnerFor cfg nt allPreds = some p then
          { ct with currentScreen := p.target
                    screensCrossed := ct.screensCrossed + 1
                    link := (nt.screen, nt.trackId)
                    pending := none, status := CTStatus.active
                    predictedScreens := [] }
        else if p.winHi < now then
          { ct with pending := none, status := CTStatus.active, predictedScreens := [] }
        else ct
    | none =>
        if p.winHi < now then
          { ct with pending := none, status := CTStatus.active, predictedScreens := [] }
        else ct

/-- Modelled from the spec: one Registry reconciliation pass over all
CrossTracks against the newly spawned Tracks of this frame (spec 4.5). -/
def registryStep (cfg : Config) (cts : List CrossTrack) (nts : List NewTrack)
    (now : ℚ) : List CrossTrack :=
  cts.map (registryStepCT cfg (pendingPreds cts) nts now)

/-- The prediction emitted this frame for the per-stream track a CrossTrack
is composed of, if any. -/
def predFor (preds : List HandoffPrediction) (ct : CrossTrack) :
    Option HandoffPrediction :=
  preds.find? (fun p => (p.srcScreen == ct.link.1) && (p.srcTrack == ct.link.2))

/-- A fresh CrossTrack created on the first detection of a new object. -/
def mkCrossTrack (g : Nat) (tr : Track) : CrossTrack :=
  { gid := g, currentScreen := tr.stream, screensCrossed := 0
    link := (tr.stream, tr.id), pending := none, status := CTStatus.active
    predictedScreens := [] }

/-- Does the track list still own the linked per-stream track. -/
def hasTrack (ts : List Track) (l : Nat × Nat) : Bool :=
  ts.any (fun t => (t.stream == l.1) && (t.id == l.2))

/-- Modelled from the spec: one input frame: its timestamp and the
detections delivered by the external detector across all streams. -/
structure Frame where
  now : ℚ
  dets : List Detection
deriving DecidableEq

/-- Modelled from the spec: the whole mutable state of the engine: all
per-stream tracks, the predictions emitted by the last processed frame, the
CrossTracks of the Registry, and the fresh-id counters. -/
structure EngineState where
  tracks : List Track
  preds : List HandoffPrediction
  cts : List CrossTrack
  nextId : Nat
  nextGid : Nat
deriving DecidableEq

/-- Modelled from the spec: one tracking cycle (spec 2 data flow).  The
per-stream trackers always run.  When velocity-based prediction is enabled,
the Predictor emits the predictions of this frame (superseding previous ones),
the Registry reconciles them against newly spawned tracks, CrossTracks are
created for unclaimed new objects and destroyed once their underlying track
is evicted with nothing pending.  When prediction is disabled via
configuration, the Predictor and the Registry transition logic are bypassed
and detections pass through with per-stream identity only (spec 6). -/
def engineStep (cfg : Config) (st : EngineState) (f : Frame) : EngineState :=
  let r := trackerStep cfg f.now st.tracks f.dets st.nextId
  let tracks2 := r.1
  let spawned := r.2.1
  let nid2 := r.2.2
  if cfg.enabled then
    let preds2 := framePredictions cfg f.now tracks2
    let ctsP := st.cts.map (fun ct =>
      let pd := updatePrediction ct.pending (predFor preds2 ct)
      { ct with pending := pd
                status := match pd with
                  | some _ => CTStatus.pendingHandoff
                  | none => CTStatus.active
                predictedScreens := match pd with
                  | some p => [p.target]
                  | none => [] })
    let nts := spawned.map (toNewTrack f.now)
    let cts2 := registryStep cfg ctsP nts f.now
    let freshSrc := spawned.filter (fun tr =>
      decide (winnerFor cfg (toNewTrack f.now tr) (pendingPreds ctsP) = none))
    let fresh := freshSrc.enum.map (fun p => mkCrossTrack (st.nextGid + p.1) p.2)
    let cts3 := (cts2 ++ fresh).filter (fun ct =>
      decide (ct.pending ≠ none) || hasTrack tracks2 ct.link)
    { tracks := tracks2, preds := preds2, cts := cts3
      nextId := nid2, nextGid := st.nextGid + freshSrc.length }
  else
    { tracks := tracks2, preds := [], cts := st.cts
      nextId := nid2, nextGid := st.nextGid }

/-- A per-stream track as published in a Snapshot, enriched with its owning
global id, crossing counter and predicted screens of its owning CrossTrack. -/
structure EnrichedTrack where
  track : Track
  gid : Option Nat
  crossed : Option Nat
  predicted : List Nat
deriving DecidableEq

/-- Enrichment of one live track from the Registry. -/
def enrich (cts : List CrossTrack) (tr : Track) : EnrichedTrack :=
  match cts.find? (fun ct => (ct.link.1 == tr.stream) && (ct.link.2 == tr.id)) with
  | some ct => { track := tr, gid := some ct.gid, crossed := some ct.screensCrossed
                 predicted := ct.predictedScreens }
  | none => { track := tr, gid := none, crossed := none, predicted := [] }

/-- Modelled from the spec: the content of a Snapshot (spec 4.6): every
currently live track enriched with cross-track metadata, plus the full
CrossTrack list. -/
structure SnapContent where
  dets : List EnrichedTrack
  cts : List CrossTrack
deriving DecidableEq

/-- The consistent read the Aggregator takes over the trackers and the
Registry. -/
def contentOf (st : EngineState) : SnapContent :=
  { dets := st.tracks.map (enrich st.cts), cts := st.cts }

/-- Modelled from the spec: an immutable, versioned Snapshot with a
monotonically increasing sequence number (spec 3). -/
structure Snapshot where
  seq : Nat
  time : ℚ
  content : SnapContent
deriving DecidableEq

/-- Modelled from the spec: the Snapshot Aggregator (spec 4.6): bump the
sequence number and join the current state into a snapshot.  Returns the
new sequence state and the published Snapshot. -/
def aggregate (seq : Nat) (st : EngineState) (now : ℚ) : Nat × Snapshot :=
  (seq + 1, { seq := seq + 1, time := now, content := contentOf st })

/-- Repeated no-detection tracker frames (every track coasts and ages);
used to state the eviction claim. -/
def runNoDet (cfg : Config) : Nat → List Track → List Track
  | 0, ts => ts
  | n + 1, ts => runNoDet cfg n (trackerStep cfg 0 ts [] 0).1

end Engine

/-- Invariant of the `latest` association list while folding
`Panel.latestStep` over a prefix `seen` of the detections: keys are
distinct; every entry is keyed by its own track id, comes from `seen`, and
carries a maximal timestamp for its key; and the key set is exactly the set
of track ids occurring in `seen`. -/
def latestInv (seen : List Panel.MDet) (m : List (Nat × Panel.MDet)) : Prop :=
  (m.map Prod.fst).Nodup ∧
  (∀ k e, (k, e) ∈ m →
      Panel.trackIdOf e = some k ∧ e ∈ seen ∧
      ∀ d2 ∈ seen, Panel.trackIdOf d2 = some k → d2.timestamp ≤ e.timestamp) ∧
  (∀ k, k ∈ m.map Prod.fst ↔ k ∈ seen.filterMap Panel.trackIdOf)

namespace Wit

/-- A configuration with velocity prediction enabled, used for concrete
checks. -/
def cfgOn : Engine.Config :=
  { memoryWindow := 5, affinityMin := 1/10, horizon := 10, tol := 1/10, enabled := true }

/-- A configuration with velocity prediction disabled. -/
def cfgOff : Engine.Config :=
  { memoryWindow := 5, affinityMin := 1/10, horizon := 10, tol := 1/10, enabled := false }

/-- The empty engine state. -/
def st0 : Engine.EngineState :=
  { tracks := [], preds := [], cts := [], nextId := 0, nextGid := 0 }

/-- A valid concrete detection on stream 0. -/
def det0 : Engine.Detection :=
  { stream := 0, x := 1/4, y := 1/4, w := 1/8, h := 1/8, cls := 1, conf := 3/4, t := 0 }

/-- A concrete input frame. -/
def frame0 : Engine.Frame := { now := 0, dets := [det0] }

/-- A track on screen 0 moving right at constant velocity (1/4, 0), with
two buffer samples at y = 2/5. -/
def tr0 : Engine.Track :=
  { stream := 0, id := 7
    buf := [{ pos := (1/2, 2/5), t := 1 }, { pos := (1/4, 2/5), t := 0 }]
    labels := [1, 1], w := 1/8, h := 1/8, age := 0 }

/-- A track with a single buffer sample (velocity undefined). -/
def tr1 : Engine.Track :=
  { stream := 2, id := 3, buf := [{ pos := (1/2, 1/2), t := 0 }]
    labels := [1], w := 1/8, h := 1/8, age := 0 }

/-- A concrete pending handoff prediction from screen 0 to screen 1. -/
def p0 : Engine.HandoffPrediction :=
  { srcScreen := 0, srcTrack := 7, target := 1, entry := (0, 2/5)
    winLo := 1, winHi := 3, emitTime := 1, vel := (1/4, 0), conf := 1, cls := 1 }

/-- A later competing prediction from screen 4 to screen 1. -/
def p1 : Engine.HandoffPrediction :=
  { srcScreen := 4, srcTrack := 9, target := 1, entry := (1/20, 2/5)
    winLo := 1, winHi := 3, emitTime := 2, vel := (0, -1/4), conf := 1, cls := 1 }

/-- A CrossTrack pending on `p0`. -/
def ct0 : Engine.CrossTrack :=
  { gid := 0, currentScreen := 0, screensCrossed := 0, link := (0, 7)
    pending := some p0, status := Engine.CTStatus.pendingHandoff, predictedScreens := [1] }

/-- A CrossTrack pending on the competing `p1`. -/
def ct1 : Engine.CrossTrack :=
  { gid := 1, currentScreen := 4, screensCrossed := 2, link := (4, 9)
    pending := some p1, status := Engine.CTStatus.pendingHandoff, predictedScreens := [1] }

/-- A newly spawned track on screen 1 near the predicted entry point,
inside the arrival window, with matching class. -/
def nt0 : Engine.NewTrack :=
  { screen := 1, trackId := 3, pos := (1/20, 2/5), cls := 1, spawnTime := 2 }

/-- A detection carrying track id 1 at timestamp 10. -/
def d1 : Panel.MDet :=
  { streamId := 0, boundingBox := some { trackId := some 1, className := none, confidence := some (1/2) }
    timestamp := 10 }

/-- A later detection of the same track id 1 at timestamp 20. -/
def d2 : Panel.MDet :=
  { streamId := 0, boundingBox := some { trackId := some 1, className := none, confidence := some (3/4) }
    timestamp := 20 }

/-- A detection with no bounding box (and hence no track id). -/
def d3 : Panel.MDet := { streamId := 1, boundingBox := none, timestamp := 5 }

/-- A concrete detection list for the MetadataPanel checks. -/
def dets0 : List Panel.MDet := [d1, d2, d3]

end Wit

/-! ## Theorems -/

theorem foldlPick_mem {α β : Type} [LinearOrder β] (f : α → β) :
    ∀ (xs : List α) (x : α),
      xs.foldl (fun b a => if f a < f b then a else b) x ∈ x :: xs := by
  intro xs
  induction xs with
  | nil => intro x; exact List.mem_singleton_self x
  | cons a xs ih =>
    intro x
    rw [List.foldl_cons]
    rcases List.mem_cons.mp (ih (if f a < f x then a else x)) with h1 | h1
    · rw [h1]
      by_cases hc : f a < f x
      · simp [hc]
      · simp [hc]
    · exact List.mem_cons_of_mem _ (List.mem_cons_of_mem _ h1)

theorem pickMin_mem {α β : Type} [LinearOrder β] {f : α → β} {l : List α} {a : α}
    (h : pickMin f l = some a) : a ∈ l := by
  cases l with
  | nil => simp [pickMin] at h
  | cons x xs =>
    have h2 : xs.foldl (fun b a => if f a < f b then a else b) x = a :=
      Option.some_injective _ h
    exact h2 ▸ foldlPick_mem f xs x

theorem pickMin_eq_none {α β : Type} [LinearOrder β] (f : α → β) (l : List α) :
    pickMin f l = none ↔ l = [] := by
  cases l <;> simp [pickMin]

theorem length_eq_of_nodup_mem_iff {α : Type} [DecidableEq α] {l1 l2 : List α}
    (h1 : l1.Nodup) (h2 : l2.Nodup) (h : ∀ a, a ∈ l1 ↔ a ∈ l2) :
    l1.length = l2.length := by
  have hfs : l1.toFinset = l2.toFinset := by
    apply Finset.ext
    intro a
    simp only [List.mem_toFinset]
    exact h a
  calc l1.length = l1.toFinset.card := (List.toFinset_card_of_nodup h1).symm
    _ = l2.toFinset.card := by rw [hfs]
    _ = l2.length := List.toFinset_card_of_nodup h2

/-- C8: the screen topology is fixed and consists of exactly 6 screens in a
2x3 grid, and the dashboard always renders exactly six streams with ids 0
through 5, independently of which streams deliver frames or detections. -/
theorem c8_six_screen_topology :
    Grid.streams = [0, 1, 2, 3, 4, 5] ∧
    Grid.streams.length = 6 ∧
    Engine.screens = [0, 1, 2, 3, 4, 5] ∧
    Engine.screenRows = 2 ∧
    Engine.screenCols = 3 ∧
    Engine.screens.length = Engine.screenRows * Engine.screenCols ∧
    (∀ (frames : List (Nat × String)) (dets : List Panel.MDet),
      (Grid.videoGridPlayers frames dets).map (fun p => p.streamId) = [0, 1, 2, 3, 4, 5]) := by
  refine ⟨rfl, rfl, by decide, rfl, rfl, by decide, ?_⟩
  intro frames dets
  simp [Grid.videoGridPlayers, Grid.streams]

theorem foldl_add_conf (l : List Panel.MDet) (a : ℚ) :
    l.foldl (fun s d => s + Panel.confOf d) a = a + (l.map Panel.confOf).sum := by
  induction l generalizing a with
  | nil => simp
  | cons d l ih => simp [ih, add_assoc]

/-- C10: the MetadataPanel average confidence is the arithmetic mean of the
confidences (missing confidence counted as 0) on a non-empty list, exactly
0 on the empty list, and the denominator of the division is non-zero whenever
the division is performed. -/
theorem c10_avg_confidence_mean (dets : List Panel.MDet) :
    (dets = [] → Panel.avgConfidence dets = 0) ∧
    (dets ≠ [] →
      Panel.avgConfidence dets = (dets.map Panel.confOf).sum / (dets.length : ℚ) ∧
      (dets.length : ℚ) ≠ 0) := by
  constructor
  · intro h; subst h; rfl
  · intro h
    have hlen : 0 < dets.length := List.length_pos.mpr h
    refine ⟨?_, ?_⟩
    · simp [Panel.avgConfidence, hlen, foldl_add_conf]
    · exact Nat.cast_ne_zero.mpr (by omega)

theorem c10_witness :
    Wit.dets0 ≠ [] ∧
    (Panel.avgConfidence Wit.dets0 = (Wit.dets0.map Panel.confOf).sum / (Wit.dets0.length : ℚ) ∧
      ((Wit.dets0.length : ℚ) ≠ 0)) :=
  ⟨by decide, (c10_avg_confidence_mean Wit.dets0).2 (by decide)⟩

/-- C2: snapshot sequence numbers of successively published snapshots
strictly increase, and two consecutive aggregations with no state change in
between do not decrease the sequence number and publish identical content
(only sequence number and timestamp may differ). -/
theorem c2_snapshot_sequencing (s : Nat) (w1 w2 : Engine.EngineState) (t1 t2 : ℚ) :
    (Engine.aggregate s w1 t1).2.seq <
      (Engine.aggregate (Engine.aggregate s w1 t1).1 w2 t2).2.seq ∧
    (w2 = w1 →
      (Engine.aggregate s w1 t1).2.seq ≤
        (Engine.aggregate (Engine.aggregate s w1 t1).1 w2 t2).2.seq ∧
      (Engine.aggregate (Engine.aggregate s w1 t1).1 w2 t2).2.content =
        (Engine.aggregate s w1 t1).2.content) := by
  refine ⟨by simp [Engine.aggregate], fun h => ⟨by simp [Engine.aggregate], ?_⟩⟩
  subst h
  rfl

theorem c2_witness :
    Wit.st0 = Wit.st0 ∧
    ((Engine.aggregate 0 Wit.st0 0).2.seq <
        (Engine.aggregate (Engine.aggregate 0 Wit.st0 0).1 Wit.st0 1).2.seq ∧
      (Engine.aggregate (Engine.aggregate 0 Wit.st0 0).1 Wit.st0 1).2.content =
        (Engine.aggregate 0 Wit.st0 0).2.content) :=
  ⟨rfl, (c2_snapshot_sequencing 0 Wit.st0 Wit.st0 0 1).1,
    ((c2_snapshot_sequencing 0 Wit.st0 Wit.st0 0 1).2 rfl).2⟩

/-- C5: a track whose ring buffer holds fewer than two samples (velocity
undefined: zero vector, zero confidence), or whose exit edge resolves no
topology neighbor, obtains no HandoffPrediction this frame, and its
previously stored prediction is superseded (replaced by nothing), not
accumulated. -/
theorem c5_undefined_velocity_no_prediction (cfg : Engine.Config) (now : ℚ)
    (tr : Engine.Track) (prev : Option Engine.HandoffPrediction)
    (h : tr.buf.length < 2 ∨
      ∀ e t, Engine.edgeExitTime (Engine.trackPos tr) (Engine.velocityOf tr.buf).1 = some (e, t) →
        Engine.neighbor_of tr.stream e = none) :
    Engine.predict cfg now tr = none ∧
    Engine.updatePrediction prev (Engine.predict cfg now tr) = none := by
  have hp : Engine.predict cfg now tr = none := by
    rcases h with h | h
    · have hv : Engine.velocityOf tr.buf = ((0, 0), 0) := by
        simp [Engine.velocityOf, h]
      simp [Engine.predict, hv]
    · by_cases h0 : (Engine.velocityOf tr.buf).2 = 0
      · simp [Engine.predict, h0]
      · cases he : Engine.edgeExitTime (Engine.trackPos tr) (Engine.velocityOf tr.buf).1 with
        | none => simp [Engine.predict, h0, he]
        | some et =>
          have hn := h et.1 et.2 (by rw [he])
          by_cases ht : et.2 ≤ cfg.horizon
          · simp [Engine.predict, h0, he, ht, hn]
          · simp [Engine.predict, h0, he, ht]
  exact ⟨hp, by simp [Engine.updatePrediction, hp]⟩

theorem c5_witness :
    (Wit.tr1.buf.length < 2 ∨
      ∀ e t, Engine.edgeExitTime (Engine.trackPos Wit.tr1) (Engine.velocityOf Wit.tr1.buf).1 = some (e, t) →
        Engine.neighbor_of Wit.tr1.stream e = none) ∧
    Engine.predict Wit.cfgOn 3 Wit.tr1 = none ∧
    Engine.updatePrediction (some Wit.p0) (Engine.predict Wit.cfgOn 3 Wit.tr1) = none :=
  ⟨Or.inl (by decide),
    c5_undefined_velocity_no_prediction Wit.cfgOn 3 Wit.tr1 (some Wit.p0) (Or.inl (by decide))⟩

/-- C7: with velocity-based prediction disabled via the startup
configuration flag, no HandoffPrediction is ever emitted over any input
frame sequence, and the screens-crossed counter of every CrossTrack stays 0
regardless of object motion. -/
theorem c7_disabled_prediction (cfg : Engine.Config) (hdis : cfg.enabled = false) :
    ∀ (frames : List Engine.Frame) (st : Engine.EngineState),
      st.preds = [] → (∀ ct ∈ st.cts, ct.screensCrossed = 0) →
      (frames.foldl (Engine.engineStep cfg) st).preds = [] ∧
      ∀ ct ∈ (frames.foldl (Engine.engineStep cfg) st).cts, ct.screensCrossed = 0 := by
  intro frames
  induction frames with
  | nil => intro st h1 h2; exact ⟨h1, h2⟩
  | cons f fs ih =>
    intro st h1 h2
    rw [List.foldl_cons]
    apply ih
    · simp [Engine.engineStep, hdis]
    · intro ct hct
      have hc : (Engine.engineStep cfg st f).cts = st.cts := by
        simp [Engine.engineStep, hdis]
      exact h2 ct (hc ▸ hct)

theorem c7_witness :
    Wit.cfgOff.enabled = false ∧
    (([Wit.frame0].foldl (Engine.engineStep Wit.cfgOff) Wit.st0).preds = [] ∧
      ∀ ct ∈ ([Wit.frame0].foldl (Engine.engineStep Wit.cfgOff) Wit.st0).cts,
        ct.screensCrossed = 0) :=
  ⟨rfl, c7_disabled_prediction Wit.cfgOff rfl [Wit.frame0] Wit.st0 rfl (by simp [Wit.st0])⟩

theorem bestArrival_matches {cfg : Engine.Config} {p : Engine.HandoffPrediction}
    {nts : List Engine.NewTrack} {nt : Engine.NewTrack}
    (h : Engine.bestArrival cfg p nts = some nt) :
    Engine.arrivalMatch cfg p nt = true ∧ nt ∈ nts := by
  have hm := pickMin_mem h
  exact ⟨(List.mem_filter.mp hm).2, (List.mem_filter.mp hm).1⟩

theorem winnerFor_singleton {cfg : Engine.Config} {p : Engine.HandoffPrediction}
    {nt : Engine.NewTrack} (h : Engine.arrivalMatch cfg p nt = true) :
    Engine.winnerFor cfg nt [p] = some p := by
  simp [Engine.winnerFor, List.filter, h, pickMin]

theorem winnerFor_pair {cfg : Engine.Config} {p1 p2 : Engine.HandoffPrediction}
    {nt : Engine.NewTrack} (h1 : Engine.arrivalMatch cfg p1 nt = true)
    (h2 : Engine.arrivalMatch cfg p2 nt = true) (he : p1.emitTime < p2.emitTime) :
    Engine.winnerFor cfg nt [p1, p2] = some p1 := by
  simp [Engine.winnerFor, List.filter, h1, h2, pickMin, not_lt.mpr he.le]

/-- C1: a pending CrossTrack whose prediction is met by a new track on the
predicted target screen (near the entry point, within the arrival window,
matching class) gains exactly one crossing and moves to the target screen;
if the arrival window elapses with no matching new track, the crossing
counter is unchanged and the CrossTrack remains on its original screen. -/
theorem c1_confirm_or_expire (cfg : Engine.Config) (ct : Engine.CrossTrack)
    (p : Engine.HandoffPrediction) (nts : List Engine.NewTrack) (now : ℚ)
    (hpend : ct.pending = some p) :
    ((∃ nt ∈ nts, Engine.arrivalMatch cfg p nt = true) →
      ∀ ct2 ∈ Engine.registryStep cfg [ct] nts now,
        ct2.screensCrossed = ct.screensCrossed + 1 ∧ ct2.currentScreen = p.target) ∧
    ((∀ nt ∈ nts, Engine.arrivalMatch cfg p nt = false) → p.winHi < now →
      ∀ ct2 ∈ Engine.registryStep cfg [ct] nts now,
        ct2.screensCrossed = ct.screensCrossed ∧ ct2.currentScreen = ct.currentScreen) := by
  have hpp : Engine.pendingPreds [ct] = [p] := by
    simp [Engine.pendingPreds, hpend]
  constructor
  · rintro ⟨nt, hmem, hm⟩ ct2 hct2
    have hsome : Engine.bestArrival cfg p nts ≠ none := by
      intro hno
      rw [Engine.bestArrival, pickMin_eq_none, List.filter_eq_nil_iff] at hno
      exact (hno nt hmem) hm
    cases hb : Engine.bestArrival cfg p nts with
    | none => exact absurd hb hsome
    | some nt2 =>
      have hm2 := (bestArrival_matches hb).1
      have hwin := winnerFor_singleton hm2
      simp only [Engine.registryStep, hpp, List.map_cons, List.map_nil] at hct2
      rcases List.mem_cons.mp hct2 with h | h
      · subst h
        simp [Engine.registryStepCT, hpend, hb, hwin]
      · simp at h
  · intro hnone hwin ct2 hct2
    have hfil : nts.filter (Engine.arrivalMatch cfg p) = [] := by
      rw [List.filter_eq_nil_iff]
      intro nt hmem
      simp [hnone nt hmem]
    have hb : Engine.bestArrival cfg p nts = none := by
      rw [Engine.bestArrival, hfil]
      rfl
    simp only [Engine.registryStep, hpp, List.map_cons, List.map_nil] at hct2
    rcases List.mem_cons.mp hct2 with h | h
    · subst h
      simp [Engine.registryStepCT, hpend, hb, hwin]
    · simp at h

theorem c1_witness :
    Wit.ct0.pending = some Wit.p0 ∧
    (∀ ct2 ∈ Engine.registryStep Wit.cfgOn [Wit.ct0] [Wit.nt0] 2,
      ct2.screensCrossed = Wit.ct0.screensCrossed + 1 ∧ ct2.currentScreen = Wit.p0.target) ∧
    (∀ ct2 ∈ Engine.registryStep Wit.cfgOn [Wit.ct0] [] 4,
      ct2.screensCrossed = Wit.ct0.screensCrossed ∧ ct2.currentScreen = Wit.ct0.currentScreen) :=
  ⟨rfl,
    (c1_confirm_or_expire Wit.cfgOn Wit.ct0 Wit.p0 [Wit.nt0] 2 rfl).1
      ⟨Wit.nt0, by simp,
        by norm_num [Engine.arrivalMatch, dist2, Wit.cfgOn, Wit.p0, Wit.nt0]⟩,
    (c1_confirm_or_expire Wit.cfgOn Wit.ct0 Wit.p0 [] 4 rfl).2 (by simp)
      (by norm_num [Wit.p0])⟩

/-- C6: when two pending predictions from different source tracks compete
for the same newly spawned track within the same arrival window, the
prediction with the earliest emission time is confirmed (its CrossTrack
crosses and moves to its target) and the later prediction does not confirm
a crossing for that same new track: the counter and screen of its CrossTrack are
untouched this cycle. -/
theorem c6_earliest_emission_wins (cfg : Engine.Config)
    (ct1 ct2 : Engine.CrossTrack) (p1 p2 : Engine.HandoffPrediction)
    (nt : Engine.NewTrack) (nts : List Engine.NewTrack) (now : ℚ)
    (h1 : ct1.pending = some p1) (h2 : ct2.pending = some p2)
    (hb1 : Engine.bestArrival cfg p1 nts = some nt)
    (hb2 : Engine.bestArrival cfg p2 nts = some nt)
    (he : p1.emitTime < p2.emitTime) :
    (Engine.registryStep cfg [ct1, ct2] nts now).map
        (fun c => (c.screensCrossed, c.currentScreen)) =
      [(ct1.screensCrossed + 1, p1.target), (ct2.screensCrossed, ct2.currentScreen)] := by
  have hpp : Engine.pendingPreds [ct1, ct2] = [p1, p2] := by
    simp [Engine.pendingPreds, h1, h2]
  have hm1 := (bestArrival_matches hb1).1
  have hm2 := (bestArrival_matches hb2).1
  have hwin := winnerFor_pair hm1 hm2 he
  have hne : p1 ≠ p2 := by
    intro hq
    rw [hq] at he
    exact lt_irrefl _ he
  have e1 : (Engine.registryStepCT cfg [p1, p2] nts now ct1).screensCrossed = ct1.screensCrossed + 1 ∧
      (Engine.registryStepCT cfg [p1, p2] nts now ct1).currentScreen = p1.target := by
    simp [Engine.registryStepCT, h1, hb1, hwin]
  have e2 : (Engine.registryStepCT cfg [p1, p2] nts now ct2).screensCrossed = ct2.screensCrossed ∧
      (Engine.registryStepCT cfg [p1, p2] nts now ct2).currentScreen = ct2.currentScreen := by
    have : ¬(Engine.winnerFor cfg nt [p1, p2] = some p2) := by
      rw [hwin]
      intro hq
      exact hne (Option.some_injective _ hq)
    by_cases hlate : p2.winHi < now
    · simp [Engine.registryStepCT, h2, hb2, hwin, this, hlate, hne]
    · simp [Engine.registryStepCT, h2, hb2, hwin, this, hlate, hne]
  simp only [Engine.registryStep, hpp, List.map_cons, List.map_nil]
  rw [e1.1, e1.2, e2.1, e2.2]

theorem c6_witness :
    Wit.ct0.pending = some Wit.p0 ∧ Wit.ct1.pending = some Wit.p1 ∧
    Engine.bestArrival Wit.cfgOn Wit.p0 [Wit.nt0] = some Wit.nt0 ∧
    Engine.bestArrival Wit.cfgOn Wit.p1 [Wit.nt0] = some Wit.nt0 ∧
    Wit.p0.emitTime < Wit.p1.emitTime ∧
    (Engine.registryStep Wit.cfgOn [Wit.ct0, Wit.ct1] [Wit.nt0] 2).map
        (fun c => (c.screensCrossed, c.currentScreen)) =
      [(Wit.ct0.screensCrossed + 1, Wit.p0.target),
       (Wit.ct1.screensCrossed, Wit.ct1.currentScreen)] :=
  have hba0 : Engine.bestArrival Wit.cfgOn Wit.p0 [Wit.nt0] = some Wit.nt0 := by
    norm_num [Engine.bestArrival, Engine.arrivalMatch, dist2, pickMin,
      Wit.cfgOn, Wit.p0, Wit.nt0]
  have hba1 : Engine.bestArrival Wit.cfgOn Wit.p1 [Wit.nt0] = some Wit.nt0 := by
    norm_num [Engine.bestArrival, Engine.arrivalMatch, dist2, pickMin,
      Wit.cfgOn, Wit.p1, Wit.nt0]
  have hemit : Wit.p0.emitTime < Wit.p1.emitTime := by norm_num [Wit.p0, Wit.p1]
  ⟨rfl, rfl, hba0, hba1, hemit,
    c6_earliest_emission_wins Wit.cfgOn Wit.ct0 Wit.ct1 Wit.p0 Wit.p1 Wit.nt0 [Wit.nt0] 2
      rfl rfl hba0 hba1 hemit⟩

theorem trackerStep_age_le (cfg : Engine.Config) (now : ℚ) (tracks : List Engine.Track)
    (dets : List Engine.Detection) (nid : Nat) :
    ∀ t ∈ (Engine.trackerStep cfg now tracks dets nid).1, t.age ≤ cfg.memoryWindow := by
  intro t ht
  simp only [Engine.trackerStep] at ht
  rcases List.mem_append.mp ht with h | h
  · exact of_decide_eq_true (List.mem_filter.mp h).2
  · obtain ⟨p, _, rfl⟩ := List.mem_map.mp h
    exact Nat.zero_le _

theorem engineStep_tracks (cfg : Engine.Config) (st : Engine.EngineState) (f : Engine.Frame) :
    (Engine.engineStep cfg st f).tracks =
      (Engine.trackerStep cfg f.now st.tracks f.dets st.nextId).1 := by
  by_cases h : cfg.enabled <;> simp [Engine.engineStep, h]

theorem enrich_track (cts : List Engine.CrossTrack) (tr : Engine.Track) :
    (Engine.enrich cts tr).track = tr := by
  unfold Engine.enrich
  cases cts.find? (fun ct => (ct.link.1 == tr.stream) && (ct.link.2 == tr.id)) <;> rfl

theorem trackerStep_nil (cfg : Engine.Config) (now : ℚ) (tracks : List Engine.Track)
    (nid : Nat) :
    Engine.trackerStep cfg now tracks [] nid =
      ((tracks.map Engine.ageInc).filter (fun t => decide (t.age ≤ cfg.memoryWindow)),
        [], nid) := by
  simp [Engine.trackerStep, Engine.assign, Engine.spawnTracks]

theorem runNoDet_nil (cfg : Engine.Config) : ∀ n, Engine.runNoDet cfg n [] = [] := by
  intro n
  induction n with
  | zero => rfl
  | succ n ih =>
    have h : Engine.runNoDet cfg (n + 1) [] =
        Engine.runNoDet cfg n (Engine.trackerStep cfg 0 [] [] 0).1 := rfl
    rw [h, trackerStep_nil]
    simpa using ih

theorem runNoDet_evicts (cfg : Engine.Config) :
    ∀ (m : Nat) (tr : Engine.Track), cfg.memoryWindow ≤ tr.age + m →
      Engine.runNoDet cfg (m + 1) [tr] = [] := by
  intro m
  induction m with
  | zero =>
    intro tr h
    have h1 : Engine.runNoDet cfg 1 [tr] =
        Engine.runNoDet cfg 0 (Engine.trackerStep cfg 0 [tr] [] 0).1 := rfl
    rw [h1, trackerStep_nil]
    have hno : ¬((Engine.ageInc tr).age ≤ cfg.memoryWindow) := by
      simp only [Engine.ageInc]
      omega
    simp [Engine.runNoDet, hno]
  | succ m ih =>
    intro tr h
    have h1 : Engine.runNoDet cfg (m + 2) [tr] =
        Engine.runNoDet cfg (m + 1) (Engine.trackerStep cfg 0 [tr] [] 0).1 := rfl
    rw [h1, trackerStep_nil]
    by_cases hk : (Engine.ageInc tr).age ≤ cfg.memoryWindow
    · have h2 : ([tr].map Engine.ageInc).filter
          (fun t => decide (t.age ≤ cfg.memoryWindow)) = [Engine.ageInc tr] := by
        simp [hk]
      rw [h2]
      apply ih
      simp only [Engine.ageInc]
      simp only [Engine.ageInc] at hk
      omega
    · have h2 : ([tr].map Engine.ageInc).filter
          (fun t => decide (t.age ≤ cfg.memoryWindow)) = [] := by
        simp [hk]
      rw [h2]
      exact runNoDet_nil cfg (m + 1)

/-- C3: no track whose age since its last matched detection exceeds the
memory window survives a tracking cycle into the published snapshot; and
with window 5, a track that receives no matching detection for 6
consecutive frames is evicted. -/
theorem c3_eviction (cfg : Engine.Config) (st : Engine.EngineState) (f : Engine.Frame)
    (seq : Nat) (now : ℚ) :
    (∀ et ∈ (Engine.aggregate seq (Engine.engineStep cfg st f) now).2.content.dets,
        et.track.age ≤ cfg.memoryWindow) ∧
    (cfg.memoryWindow = 5 → ∀ tr : Engine.Track, tr.age = 0 →
        Engine.runNoDet cfg 6 [tr] = []) := by
  constructor
  · intro et het
    simp only [Engine.aggregate, Engine.contentOf] at het
    obtain ⟨t, ht, rfl⟩ := List.mem_map.mp het
    rw [enrich_track]
    rw [engineStep_tracks] at ht
    exact trackerStep_age_le cfg f.now st.tracks f.dets st.nextId t ht
  · intro hw tr htr
    exact runNoDet_evicts cfg 5 tr (by omega)

theorem c3_witness :
    Wit.cfgOn.memoryWindow = 5 ∧
    (∀ et ∈ (Engine.aggregate 0 (Engine.engineStep Wit.cfgOn Wit.st0 Wit.frame0) 1).2.content.dets,
        et.track.age ≤ Wit.cfgOn.memoryWindow) ∧
    Engine.runNoDet Wit.cfgOn 6 [Wit.tr0] = [] :=
  ⟨rfl,
    (c3_eviction Wit.cfgOn Wit.st0 Wit.frame0 0 1).1,
    (c3_eviction Wit.cfgOn Wit.st0 Wit.frame0 0 1).2 rfl Wit.tr0 rfl⟩

theorem neighbor_right_of_zero : Engine.neighbor_of 0 Engine.Edge.right = some 1 := rfl

/-- C4: a track on screen 0 moving right at constant velocity toward the
shared edge with screen 1, with the lookahead horizon covering the
time-to-edge, produces exactly one HandoffPrediction (not zero, not
several); it targets screen 1 and its entry point is the topology
transform of the exit point: an exit at height y enters screen 1 at the
same height y. -/
theorem c4_exactly_one_prediction (cfg : Engine.Config) (now : ℚ) (tr : Engine.Track)
    (x y vx : ℚ) (c : Nat)
    (hs : tr.stream = 0)
    (hv : Engine.velocityOf tr.buf = ((vx, 0), c))
    (hc : c ≠ 0)
    (hp : Engine.trackPos tr = (x, y))
    (hvx : 0 < vx) (hx : x < 1)
    (hh : (1 - x) / vx ≤ cfg.horizon) :
    (Engine.framePredictions cfg now [tr]).length = 1 ∧
    ∀ p ∈ Engine.framePredictions cfg now [tr], p.target = 1 ∧ p.entry = (0, y) := by
  have hpos : (0 : ℚ) < (1 - x) / vx := div_pos (by linarith) hvx
  have hee : Engine.edgeExitTime (x, y) (vx, 0) =
      some (Engine.Edge.right, (1 - x) / vx) := by
    simp [Engine.edgeExitTime, hvx, not_lt.mpr hvx.le, hpos, pickMin]
  have hpred : Engine.predict cfg now tr =
      some { srcScreen := tr.stream, srcTrack := tr.id, target := 1
             entry := (0, y)
             winLo := now + (1 - x) / vx - cfg.tol
             winHi := now + (1 - x) / vx + cfg.tol
             emitTime := now, vel := (vx, 0), conf := c
             cls := Engine.majorityLabel tr.labels } := by
    simp only [Engine.predict, hv, hp, hs, hee]
    rw [if_neg hc, if_pos hh, neighbor_right_of_zero]
    simp [Engine.entryPoint, Engine.exitPoint, Engine.transform1D]
  constructor
  · simp [Engine.framePredictions, hpred]
  · intro p hmem
    simp only [Engine.framePredictions, List.filterMap, hpred] at hmem
    rcases List.mem_cons.mp hmem with h | h
    · subst h
      exact ⟨rfl, rfl⟩
    · simp at h

theorem c4_witness :
    Engine.velocityOf Wit.tr0.buf = ((1/4, 0), 1) ∧
    (Engine.framePredictions Wit.cfgOn 1 [Wit.tr0]).length = 1 ∧
    ∀ p ∈ Engine.framePredictions Wit.cfgOn 1 [Wit.tr0],
      p.target = 1 ∧ p.entry = (0, 2/5) := by
  have hv : Engine.velocityOf Wit.tr0.buf = ((1/4, 0), 1) := by
    norm_num [Engine.velocityOf, Engine.sampleVels, Engine.ewma, Engine.stableRun,
      Wit.tr0]
  refine ⟨hv, ?_, ?_⟩
  · exact (c4_exactly_one_prediction Wit.cfgOn 1 Wit.tr0 (1/2) (2/5) (1/4) 1 rfl hv
      (by norm_num) rfl (by norm_num) (by norm_num) (by norm_num [Wit.cfgOn])).1
  · exact (c4_exactly_one_prediction Wit.cfgOn 1 Wit.tr0 (1/2) (2/5) (1/4) 1 rfl hv
      (by norm_num) rfl (by norm_num) (by norm_num) (by norm_num [Wit.cfgOn])).2

theorem upsert_cons_eq (d : Panel.MDet) (k : Nat) (d2 : Panel.MDet) (rest : List (Nat × Panel.MDet)) :
    Panel.upsertLatest d k ((k, d2) :: rest) =
      (if d2.timestamp < d.timestamp then (k, d) else (k, d2)) :: rest := by
  simp [Panel.upsertLatest]

theorem upsert_cons_ne (d : Panel.MDet) (k k2 : Nat) (hne : ¬(k2 = k)) (d2 : Panel.MDet)
    (rest : List (Nat × Panel.MDet)) :
    Panel.upsertLatest d k ((k2, d2) :: rest) = (k2, d2) :: Panel.upsertLatest d k rest := by
  simp [Panel.upsertLatest, hne]

theorem upsert_keys (d : Panel.MDet) (k : Nat) :
    ∀ m : List (Nat × Panel.MDet),
      (Panel.upsertLatest d k m).map Prod.fst =
        if k ∈ m.map Prod.fst then m.map Prod.fst else m.map Prod.fst ++ [k] := by
  intro m
  induction m with
  | nil => simp [Panel.upsertLatest]
  | cons p rest ih =>
    obtain ⟨k2, d2⟩ := p
    by_cases hk : k2 = k
    · subst hk
      rw [upsert_cons_eq]
      by_cases hts : d2.timestamp < d.timestamp <;> simp [hts]
    · have hk2 : ¬(k = k2) := fun h => hk h.symm
      rw [upsert_cons_ne d k k2 hk, List.map_cons, List.map_cons, ih]
      by_cases hmem : k ∈ rest.map Prod.fst
      · simp [hmem, hk2]
      · simp [hmem, hk2]

theorem upsert_mem_other (d : Panel.MDet) (k k2 : Nat) (e : Panel.MDet)
    (hne : k2 ≠ k) :
    ∀ m : List (Nat × Panel.MDet),
      ((k2, e) ∈ Panel.upsertLatest d k m ↔ (k2, e) ∈ m) := by
  intro m
  induction m with
  | nil =>
    simp only [Panel.upsertLatest, List.mem_singleton, List.not_mem_nil, iff_false]
    intro h
    exact hne (congrArg Prod.fst h)
  | cons p rest ih =>
    obtain ⟨k3, d3⟩ := p
    by_cases hk : k3 = k
    · subst hk
      rw [upsert_cons_eq]
      by_cases hts : d3.timestamp < d.timestamp
      · rw [if_pos hts]
        simp only [List.mem_cons, Prod.mk.injEq]
        constructor
        · rintro (⟨h1, _⟩ | h)
          · exact absurd h1 hne
          · exact Or.inr h
        · rintro (⟨h1, _⟩ | h)
          · exact absurd h1 hne
          · exact Or.inr h
      · rw [if_neg hts]
    · rw [upsert_cons_ne d k k3 hk]
      simp only [List.mem_cons, ih]

theorem upsert_mem_key (d : Panel.MDet) (k : Nat) (e : Panel.MDet) :
    ∀ m : List (Nat × Panel.MDet), (m.map Prod.fst).Nodup →
      (k, e) ∈ Panel.upsertLatest d k m →
      (e = d ∧ ∀ d2, (k, d2) ∈ m → d2.timestamp < d.timestamp) ∨
      ((k, e) ∈ m ∧ d.timestamp ≤ e.timestamp) := by
  intro m
  induction m with
  | nil =>
    intro _ h
    rw [Panel.upsertLatest, List.mem_singleton] at h
    refine Or.inl ⟨congrArg Prod.snd h, ?_⟩
    intro d2 h2
    exact absurd h2 (List.not_mem_nil _)
  | cons p rest ih =>
    obtain ⟨k3, d3⟩ := p
    intro hnd h
    have hnd2 : (rest.map Prod.fst).Nodup := (List.nodup_cons.mp hnd).2
    have hk3 : k3 ∉ rest.map Prod.fst := (List.nodup_cons.mp hnd).1
    by_cases hk : k3 = k
    · subst hk
      rw [upsert_cons_eq] at h
      by_cases hts : d3.timestamp < d.timestamp
      · rw [if_pos hts] at h
        rcases List.mem_cons.mp h with h1 | h1
        · refine Or.inl ⟨congrArg Prod.snd h1, ?_⟩
          intro d2 h2
          rcases List.mem_cons.mp h2 with h3 | h3
          · have : d2 = d3 := congrArg Prod.snd h3
            rw [this]
            exact hts
          · exact absurd (List.mem_map_of_mem Prod.fst h3) hk3
        · exact absurd (List.mem_map_of_mem Prod.fst h1) hk3
      · rw [if_neg hts] at h
        rcases List.mem_cons.mp h with h1 | h1
        · have he : e = d3 := congrArg Prod.snd h1
          rw [he]
          exact Or.inr ⟨List.mem_cons_self _ _, not_lt.mp hts⟩
        · exact absurd (List.mem_map_of_mem Prod.fst h1) hk3
    · rw [upsert_cons_ne d k k3 hk] at h
      rcases List.mem_cons.mp h with h1 | h1
      · exact absurd (congrArg Prod.fst h1) (fun hq => hk hq.symm)
      · rcases ih hnd2 h1 with ⟨he, hall⟩ | ⟨hm, hts⟩
        · refine Or.inl ⟨he, ?_⟩
          intro d2 h2
          rcases List.mem_cons.mp h2 with h3 | h3
          · exact absurd (congrArg Prod.fst h3).symm hk
          · exact hall d2 h3
        · exact Or.inr ⟨List.mem_cons_of_mem _ hm, hts⟩

theorem upsert_nodup (d : Panel.MDet) (k : Nat) (m : List (Nat × Panel.MDet))
    (hnd : (m.map Prod.fst).Nodup) :
    ((Panel.upsertLatest d k m).map Prod.fst).Nodup := by
  rw [upsert_keys]
  by_cases hmem : k ∈ m.map Prod.fst
  · simpa [hmem] using hnd
  · rw [if_neg hmem]
    rw [List.nodup_append]
    exact ⟨hnd, List.nodup_singleton k, by simpa using hmem⟩

theorem latestInv_step (seen : List Panel.MDet) (m : List (Nat × Panel.MDet))
    (d : Panel.MDet) (hinv : latestInv seen m) :
    latestInv (seen ++ [d]) (Panel.latestStep m d) := by
  obtain ⟨hnd, hent, hkeys⟩ := hinv
  cases hid : Panel.trackIdOf d with
  | none =>
    have hstep : Panel.latestStep m d = m := by rw [Panel.latestStep, hid]
    have hfm : ([d] : List Panel.MDet).filterMap Panel.trackIdOf = [] := by
      rw [List.filterMap_cons, hid]
      rfl
    refine ⟨by rw [hstep]; exact hnd, ?_, ?_⟩
    · intro k e hmem
      rw [hstep] at hmem
      obtain ⟨hidk, hseen, hmax⟩ := hent k e hmem
      refine ⟨hidk, List.mem_append_left _ hseen, ?_⟩
      intro d2 hd2 hd2id
      rcases List.mem_append.mp hd2 with h | h
      · exact hmax d2 h hd2id
      · rw [List.mem_singleton.mp h, hid] at hd2id
        exact absurd hd2id (by simp)
    · intro k
      rw [hstep, List.filterMap_append, hfm, List.append_nil]
      exact hkeys k
  | some k0 =>
    have hstep : Panel.latestStep m d = Panel.upsertLatest d k0 m := by
      rw [Panel.latestStep, hid]
    have hfm : ([d] : List Panel.MDet).filterMap Panel.trackIdOf = [k0] := by
      rw [List.filterMap_cons, hid]
      rfl
    refine ⟨by rw [hstep]; exact upsert_nodup d k0 m hnd, ?_, ?_⟩
    · intro k e hmem
      rw [hstep] at hmem
      by_cases hk : k = k0
      · subst hk
        rcases upsert_mem_key d k e m hnd hmem with ⟨he, hall⟩ | ⟨hm, hts⟩
        · rw [he]
          refine ⟨hid, List.mem_append_right _ (List.mem_singleton_self _), ?_⟩
          intro d2 hd2 hd2id
          rcases List.mem_append.mp hd2 with h | h
          · have hkin : k ∈ seen.filterMap Panel.trackIdOf :=
              List.mem_filterMap.mpr ⟨d2, h, hd2id⟩
            have hkm : k ∈ m.map Prod.fst := (hkeys k).mpr hkin
            obtain ⟨p, hp, hpfst⟩ := List.mem_map.mp hkm
            obtain ⟨kp, ep⟩ := p
            have hkp : kp = k := hpfst
            subst hkp
            have h1 := (hent kp ep hp).2.2 d2 h hd2id
            have h2 := hall ep hp
            exact le_of_lt (lt_of_le_of_lt h1 h2)
          · rw [List.mem_singleton.mp h]
        · obtain ⟨hidk, hseen, hmax⟩ := hent k e hm
          refine ⟨hidk, List.mem_append_left _ hseen, ?_⟩
          intro d2 hd2 hd2id
          rcases List.mem_append.mp hd2 with h | h
          · exact hmax d2 h hd2id
          · rw [List.mem_singleton.mp h]
            exact hts
      · rw [upsert_mem_other d k0 k e hk m] at hmem
        obtain ⟨hidk, hseen, hmax⟩ := hent k e hmem
        refine ⟨hidk, List.mem_append_left _ hseen, ?_⟩
        intro d2 hd2 hd2id
        rcases List.mem_append.mp hd2 with h | h
        · exact hmax d2 h hd2id
        · rw [List.mem_singleton.mp h, hid] at hd2id
          exact absurd (Option.some_injective _ hd2id) (fun hq => hk hq.symm)
    · intro k
      rw [hstep, upsert_keys, List.filterMap_append, hfm]
      by_cases hmem : k0 ∈ m.map Prod.fst
      · rw [if_pos hmem, List.mem_append, List.mem_singleton]
        constructor
        · intro h
          exact Or.inl ((hkeys k).mp h)
        · rintro (h | h)
          · exact (hkeys k).mpr h
          · rw [h]
            exact hmem
      · simp only [if_neg hmem, List.mem_append, List.mem_singleton]
        exact or_congr_left (hkeys k)

theorem latestInv_foldl :
    ∀ (dets seen : List Panel.MDet) (m : List (Nat × Panel.MDet)),
      latestInv seen m → latestInv (seen ++ dets) (dets.foldl Panel.latestStep m) := by
  intro dets
  induction dets with
  | nil => intro seen m h; simpa using h
  | cons d ds ih =>
    intro seen m h
    rw [List.foldl_cons]
    have h2 := ih (seen ++ [d]) (Panel.latestStep m d) (latestInv_step seen m d h)
    simpa [List.append_assoc] using h2

theorem latestInv_main (dets : List Panel.MDet) :
    latestInv dets (dets.foldl Panel.latestStep []) := by
  have h0 : latestInv [] [] := by
    refine ⟨List.nodup_nil, ?_, ?_⟩
    · intro k e h
      exact absurd h (List.not_mem_nil _)
    · intro k
      simp
  simpa using latestInv_foldl dets [] [] h0

theorem latest_by_track_main (l : List Panel.MDet) :
    (∀ e ∈ Panel.latestByTrack l,
        e ∈ l ∧ Panel.trackIdOf e ≠ none ∧
        ∀ d2 ∈ l, Panel.trackIdOf d2 = Panel.trackIdOf e →
          d2.timestamp ≤ e.timestamp) ∧
    ((Panel.latestByTrack l).map Panel.trackIdOf).Nodup ∧
    (∀ k : Nat, k ∈ l.filterMap Panel.trackIdOf ↔
        some k ∈ (Panel.latestByTrack l).map Panel.trackIdOf) ∧
    (Panel.latestByTrack l).length = (l.filterMap Panel.trackIdOf).dedup.length := by
  obtain ⟨hnd, hent, hkeys⟩ := latestInv_main l
  have hmapid : (l.foldl Panel.latestStep []).map (fun p => Panel.trackIdOf p.2) =
      (l.foldl Panel.latestStep []).map (fun p => some p.1) := by
    apply List.map_congr_left
    intro p hp
    exact (hent p.1 p.2 hp).1
  refine ⟨?_, ?_, ?_, ?_⟩
  · intro e he
    obtain ⟨p, hp, hpe⟩ := List.mem_map.mp he
    obtain ⟨kp, ep⟩ := p
    have he2 : ep = e := hpe
    subst he2
    obtain ⟨hidk, hseen, hmax⟩ := hent kp ep hp
    refine ⟨hseen, by rw [hidk]; simp, ?_⟩
    intro d2 hd2 hd2id
    rw [hidk] at hd2id
    exact hmax d2 hd2 hd2id
  · rw [Panel.latestByTrack, List.map_map]
    have hc : (fun e => Panel.trackIdOf e) ∘ (fun p : Nat × Panel.MDet => p.2) =
        fun p : Nat × Panel.MDet => Panel.trackIdOf p.2 := rfl
    rw [hc, hmapid]
    have hc2 : (fun p : Nat × Panel.MDet => some p.1) =
        Option.some ∘ (fun p : Nat × Panel.MDet => p.1) := rfl
    rw [hc2, ← List.map_map]
    exact hnd.map (Option.some_injective Nat)
  · intro k
    rw [Panel.latestByTrack, List.map_map]
    have hc : (fun e => Panel.trackIdOf e) ∘ (fun p : Nat × Panel.MDet => p.2) =
        fun p : Nat × Panel.MDet => Panel.trackIdOf p.2 := rfl
    rw [hc, hmapid]
    constructor
    · intro h
      have hk : k ∈ (l.foldl Panel.latestStep []).map Prod.fst := (hkeys k).mpr h
      obtain ⟨p, hp, hpk⟩ := List.mem_map.mp hk
      exact List.mem_map.mpr ⟨p, hp, by rw [hpk]⟩
    · intro h
      obtain ⟨p, hp, hpk⟩ := List.mem_map.mp h
      have hk : p.1 = k := Option.some_injective _ hpk
      exact (hkeys k).mp (hk ▸ List.mem_map_of_mem Prod.fst hp)
  · rw [Panel.latestByTrack, List.length_map]
    have hlen : (l.foldl Panel.latestStep []).length =
        ((l.foldl Panel.latestStep []).map Prod.fst).length :=
      (List.length_map _ _).symm
    rw [hlen]
    apply length_eq_of_nodup_mem_iff hnd (List.nodup_dedup _)
    intro a
    rw [List.mem_dedup]
    exact hkeys a

/-- C9: the MetadataPanel latest-by-track computation keeps exactly one
detection per distinct non-null track id: each returned detection comes
from the input, carries a track id, and has a maximal timestamp for its
id; the returned ids are pairwise distinct and cover exactly the ids
occurring in the input; hence the displayed unique-track count equals the
number of distinct track ids in the input. -/
theorem c9_latest_by_track (dets : List Panel.MDet) (sel : Option Nat) :
    (∀ e ∈ Panel.latestByTrack dets,
        e ∈ dets ∧ Panel.trackIdOf e ≠ none ∧
        ∀ d2 ∈ dets, Panel.trackIdOf d2 = Panel.trackIdOf e →
          d2.timestamp ≤ e.timestamp) ∧
    ((Panel.latestByTrack dets).map Panel.trackIdOf).Nodup ∧
    (∀ k : Nat, k ∈ dets.filterMap Panel.trackIdOf ↔
        some k ∈ (Panel.latestByTrack dets).map Panel.trackIdOf) ∧
    (Panel.latestByTrack dets).length = (dets.filterMap Panel.trackIdOf).dedup.length ∧
    (Panel.statsOf (Panel.filteredDetections sel dets)).uniqueTracks =
      ((Panel.filteredDetections sel dets).filterMap Panel.trackIdOf).dedup.length :=
  ⟨(latest_by_track_main dets).1, (latest_by_track_main dets).2.1,
    (latest_by_track_main dets).2.2.1, (latest_by_track_main dets).2.2.2,
    (latest_by_track_main (Panel.filteredDetections sel dets)).2.2.2⟩

theorem c9_witness :
    (Panel.latestByTrack Wit.dets0).length =
      ((Wit.dets0.filterMap Panel.trackIdOf).dedup).length ∧
    ∀ d2 ∈ Wit.dets0, Panel.trackIdOf d2 = Panel.trackIdOf Wit.d2 →
      d2.timestamp ≤ Wit.d2.timestamp := by
  refine ⟨(c9_latest_by_track Wit.dets0 none).2.2.2.1, ?_⟩
  have hmem : Wit.d2 ∈ Panel.latestByTrack Wit.dets0 := by
    norm_num [Panel.latestByTrack, Panel.latestStep, Panel.trackIdOf,
      Panel.upsertLatest, Wit.dets0, Wit.d1, Wit.d2, Wit.d3]
  exact ((c9_latest_by_track Wit.dets0 none).1 Wit.d2 hmem).2.2

end DroneCOT

